import Mathlib

/-!
Verification of the geometry vectorization pipeline (`prep/vectorize.py`) and
the baseline grid-search driver
(`model/baseline/archaeo_feature_type_logistic_regression.py`) of the
geometry-learning repository.

The per-point feature vector, the WKT vectorizer (`GeoVectorizer` from
`topoml_util`, whose implementation is not part of the sources at hand and is
therefore modelled from the specification), the corpus pass of
`prep/vectorize.py`, and the elliptic-Fourier-descriptor order selection loop
are embedded as executable Lean definitions, and the specified properties are
proved about them.
-/

namespace GeometryLearning

/-- One per-point geometry feature vector: coordinate pair plus the
`RENDER`, `STOP` and `FULL_STOP` indicator channels at fixed positions. -/
structure FeatVec where
  x : ℚ
  y : ℚ
  render : ℚ
  stop : ℚ
  fullStop : ℚ
  deriving DecidableEq, Inhabited

/-- The all-zero feature vector (numpy zero initialisation). -/
def FeatVec.zero : FeatVec := ⟨0, 0, 0, 0, 0⟩

/-- Modelled from the spec: the fixed per-point feature width `GEO_VECTOR_LEN`
imported from `topoml_util.GeoVectorizer` (not among the sources at hand);
two coordinate channels plus the three indicator channels. -/
def GEO_VECTOR_LEN : Nat := 5

/-- The flat numeric layout of a feature vector (width `GEO_VECTOR_LEN`). -/
def FeatVec.toVec (v : FeatVec) : List ℚ := [v.x, v.y, v.render, v.stop, v.fullStop]

/-- One part (ring / linestring / point) of a geometry: its coordinate list. -/
abbrev Part := List (ℚ × ℚ)

/-- A parsed WKT geometry: its parts (rings, linestrings, members of a
multi-geometry) in textual order. -/
abbrev Geom := List Part

/-- A real coordinate is emitted with `RENDER = 1`. -/
def renderPoint (p : ℚ × ℚ) : FeatVec := ⟨p.1, p.2, 1, 0, 0⟩

/-- Set the `STOP` channel of a feature vector. -/
def setStop (v : FeatVec) : FeatVec := { v with stop := 1 }

/-- Set the `FULL_STOP` channel of a feature vector. -/
def setFullStop (v : FeatVec) : FeatVec := { v with fullStop := 1 }

/-- Apply `f` to the last element of a list, if any. -/
def mapLast {α : Type} (f : α → α) : List α → List α
  | [] => []
  | [a] => [f a]
  | a :: b :: rest => a :: mapLast f (b :: rest)

/-- Apply `f` to the first element of a list, if any. -/
def mapFirst {α : Type} (f : α → α) : List α → List α
  | [] => []
  | a :: rest => f a :: rest

/-- One part rendered to feature vectors: every coordinate gets `RENDER = 1`,
the last coordinate of the part additionally gets `STOP = 1`. -/
def renderPart (p : Part) : List FeatVec := mapLast setStop (p.map renderPoint)

/-- A whole geometry rendered to feature vectors, parts in textual order. -/
def renderGeom : Geom → List FeatVec
  | [] => []
  | p :: rest => renderPart p ++ renderGeom rest

/-- Total number of coordinate points of a geometry. -/
def pointCount : Geom → Nat
  | [] => 0
  | p :: rest => p.length + pointCount rest

/-- Padding of a rendered point list to the fixed sequence length `L`:
if the real points fall short of `L`, the first padding position is the
all-zero vector flagged `FULL_STOP = 1` and the remaining positions are
all-zero; if the real points already consume the full length, no padding
position exists and the last real point carries `FULL_STOP`. -/
def padTo (pts : List FeatVec) (L : Nat) : List FeatVec :=
  if pts.length < L then
    pts ++ setFullStop FeatVec.zero :: List.replicate (L - pts.length - 1) FeatVec.zero
  else
    mapLast setFullStop pts

/-- Modelled from the spec: `GeoVectorizer.vectorize_wkt` from `topoml_util`
(the module is not among the sources at hand).  Parses one WKT geometry into
its ordered coordinates, emits one feature vector per coordinate with
`RENDER = 1`, marks the last coordinate of each ring or part with `STOP = 1`,
and produces a sequence of length `sequence_length` with exactly one
`FULL_STOP`: on the last real point when the geometry consumes the full
length, otherwise on the first padding position. -/
def vectorize_wkt (g : Geom) (L : Nat) : List FeatVec :=
  padTo (renderGeom g) L

/-- Modelled from the spec: `GeoVectorizer.vectorize_two_wkts` from
`topoml_util` (the module is not among the sources at hand).  Vectorizes the
two geometries independently without padding each individually, concatenates
their raw point sequences, marks the boundary point between them — the point
immediately following the last point of the first geometry — with `STOP = 1`,
and pads the concatenation to `sequence_length` with the same padding
convention as `vectorize_wkt`. -/
def vectorize_two_wkts (a b : Geom) (L : Nat) : List FeatVec :=
  padTo (renderGeom a ++ mapFirst setStop (renderGeom b)) L

/-- Number of positions of an encoded sequence carrying `FULL_STOP = 1`. -/
def fullStopCount (l : List FeatVec) : Nat :=
  l.countP (fun v => decide (v.fullStop = 1))

/-! ## The corpus pass of `prep/vectorize.py` -/

/-- One WKT cell of the input CSV: its raw text together with its parse
result (`none` for a malformed or unsupported WKT string; the parser itself
is the external shapely library). -/
structure WktStr where
  text : String
  geom : Option Geom
  deriving DecidableEq

/-- One CSV record of `topology-training.csv`, columns in file order:
`brt_wkt`, `osm_wkt`, `intersection_wkt`, the two distances, and the four
centroid point columns. -/
structure Record where
  brt_wkt : WktStr
  osm_wkt : WktStr
  intersection_wkt : WktStr
  centroid_distance : ℚ
  geom_distance : ℚ
  brt_centroid : WktStr
  osm_centroid : WktStr
  brt_centroid_rd : WktStr
  osm_centroid_rd : WktStr
  deriving DecidableEq

/-- `MAX_SEQUENCE_LEN = 300` from `prep/vectorize.py`. -/
def MAX_SEQUENCE_LEN : Nat := 300

/-- The record filter of `truncated_data`: keep a record iff the combined
string `brt_wkt + ";" + osm_wkt` has length at most `MAX_SEQUENCE_LEN`. -/
def keepRecord (r : Record) : Bool :=
  decide ((r.brt_wkt.text ++ ";" ++ r.osm_wkt.text).length ≤ MAX_SEQUENCE_LEN)

/-- `truncated_data` of `prep/vectorize.py`: the records surviving the
combined-length filter, in CSV order. -/
def truncated_data (rows : List Record) : List Record := rows.filter keepRecord

/-- `raw_training_set` of `prep/vectorize.py`: the combined WKT strings of
the UNFILTERED data frame. -/
def raw_training_set (rows : List Record) : List String :=
  rows.map (fun r => r.brt_wkt.text ++ ";" ++ r.osm_wkt.text)

/-- The count printed by the `... data points in training set` message:
the length of `raw_training_set`. -/
def reported_count (rows : List Record) : Nat := (raw_training_set rows).length

/-- Point count contributed by one WKT cell to the `max_points` scan: a
malformed cell contributes 0. -/
def wktPointCount (w : WktStr) : Nat :=
  match w.geom with
  | some g => pointCount g
  | none => 0

/-- Modelled from the spec: `GeoVectorizer.max_points` from `topoml_util`
(the module is not among the sources at hand): the maximum over the records
of the combined point count of the two geometry columns. -/
def max_points (rs : List Record) : Nat :=
  (rs.map (fun r => wktPointCount r.brt_wkt + wktPointCount r.osm_wkt)).foldr max 0

/-- `vectorize_wkt` on a raw WKT cell: `none` models the geometry-parse
exception raised on a malformed cell. -/
def vectorize_wkt_e (w : WktStr) (L : Nat) : Option (List FeatVec) :=
  w.geom.map (fun g => vectorize_wkt g L)

/-- `vectorize_two_wkts` on two raw WKT cells: `none` models the
geometry-parse exception raised when either cell is malformed. -/
def vectorize_two_wkts_e (a b : WktStr) (L : Nat) : Option (List FeatVec) :=
  match a.geom, b.geom with
  | some ga, some gb => some (vectorize_two_wkts ga gb L)
  | _, _ => none

/-- A zero-initialised output row of `L` feature vectors (one slice of the
`np.zeros((N, max_points, GEO_VECTOR_LEN))` arrays). -/
def zeroRow (L : Nat) : List FeatVec := List.replicate L FeatVec.zero

/-- The element-wise copy loop of `prep/vectorize.py`: overwrite the first
`src.length` positions of `dst` with `src`, leaving the rest of `dst`. -/
def copyInto (dst src : List FeatVec) : List FeatVec :=
  src.take dst.length ++ dst.drop src.length

/-- The degenerate placeholder row substituted for a broken record: the
zero row with `FULL_STOP = 1` at point index 0. -/
def dummyRow (L : Nat) : List FeatVec := mapFirst setFullStop (zeroRow L)

/-- The two output rows and the broken flag produced for one record. -/
structure RowPair where
  training : List FeatVec
  target : List FeatVec
  broken : Bool
  deriving DecidableEq

/-- The body of the per-record loop of `prep/vectorize.py`: vectorize the
geometry pair and the intersection geometry; on a parse failure of either,
substitute the placeholder into BOTH rows and flag the record broken. -/
def recordRows (L : Nat) (r : Record) : RowPair :=
  match vectorize_two_wkts_e r.brt_wkt r.osm_wkt L, vectorize_wkt_e r.intersection_wkt L with
  | some tv, some iv => ⟨copyInto (zeroRow L) tv, copyInto (zeroRow L) iv, false⟩
  | _, _ => ⟨dummyRow L, dummyRow L, true⟩

/-- The `broken_records` accumulator, indices counted from `i`. -/
def broken_records_aux (L : Nat) (rs : List Record) (i : Nat) : List Nat :=
  match rs with
  | [] => []
  | r :: rest =>
      if (recordRows L r).broken then i :: broken_records_aux L rest (i + 1)
      else broken_records_aux L rest (i + 1)

/-- `broken_records` of `prep/vectorize.py`: the indices (into the filtered
record list) whose vectorization raised, in order. -/
def broken_records (rows : List Record) : List Nat :=
  broken_records_aux (max_points (truncated_data rows)) (truncated_data rows) 0

/-- The centroid-column vectorization `GeoVectorizer.vectorize_wkt(point, 1)`
applied before the loop (a parse failure here aborts the real run; that path
is outside the vectorized-corpus claims). -/
def centroidVec (w : WktStr) : List FeatVec :=
  match w.geom with
  | some g => vectorize_wkt g 1
  | none => []

/-- The flag fix-up applied to the concatenated centroid pair: on the first
point set `FULL_STOP := 0` and `STOP := 1`. -/
def fixupFirst (row : List FeatVec) : List FeatVec :=
  mapFirst (fun v => { v with stop := 1, fullStop := 0 }) row

/-- One row of the saved `centroids` array: the two geographic centroid
vectors concatenated (`np.append(..., axis=1)`), then the flag fix-up. -/
def centroidsRow (r : Record) : List FeatVec :=
  fixupFirst (centroidVec r.brt_centroid ++ centroidVec r.osm_centroid)

/-- One row of the saved `centroids_rd` array: as `centroidsRow`, in the
projected (RD) coordinate columns. -/
def centroidsRdRow (r : Record) : List FeatVec :=
  fixupFirst (centroidVec r.brt_centroid_rd ++ centroidVec r.osm_centroid_rd)

/-- The compressed archive written by `np.savez_compressed`: exactly eight
named arrays. -/
structure Archive where
  input_geoms : List (List FeatVec)
  intersection : List (List FeatVec)
  centroid_distance : List (List (List ℚ))
  geom_distance : List (List (List ℚ))
  brt_centroid : List (List FeatVec)
  osm_centroid : List (List FeatVec)
  centroids : List (List FeatVec)
  centroids_rd : List (List FeatVec)
  deriving DecidableEq

/-- The whole corpus pass of `prep/vectorize.py`: filter the records, fix
the sequence length via `max_points`, vectorize every record (with the
placeholder fallback), vectorize and fix up the centroid columns, reshape
the distances to `(value, 0)` pairs, and assemble the archive. -/
def pipeline (rows : List Record) : Archive :=
  let td := truncated_data rows
  let L := max_points td
  { input_geoms := td.map (fun r => (recordRows L r).training)
    intersection := td.map (fun r => (recordRows L r).target)
    centroid_distance := td.map (fun r => [[r.centroid_distance, 0]])
    geom_distance := td.map (fun r => [[r.geom_distance, 0]])
    brt_centroid := td.map (fun r => centroidVec r.brt_centroid)
    osm_centroid := td.map (fun r => centroidVec r.osm_centroid)
    centroids := td.map centroidsRow
    centroids_rd := td.map centroidsRdRow }

/-- Whether a WKT cell parses to a single-point geometry (the input contract
of the four centroid columns). -/
def isSinglePoint (w : WktStr) : Bool :=
  match w.geom with
  | some [[_]] => true
  | _ => false

/-! ## The EFD order selection of
`model/baseline/archaeo_feature_type_logistic_regression.py` -/

/-- `EFD_ORDERS` from the script. -/
def EFD_ORDERS : List Nat := [0, 1, 2, 3, 4, 6, 8, 12, 16, 20, 24]

/-- One iteration of the order search: replace the incumbent only on a
strictly greater grid-search best score. -/
def gridStep (score : Nat → ℚ) (best : Nat × ℚ) (order : Nat) : Nat × ℚ :=
  if best.2 < score order then (order, score order) else best

/-- The whole order search: fold over `EFD_ORDERS` starting from
`best_order = 0`, `best_score = 0`. -/
def gridSearch (score : Nat → ℚ) : Nat × ℚ :=
  EFD_ORDERS.foldl (gridStep score) (0, 0)

/-- The selected elliptic-Fourier-descriptor order. -/
def best_order (score : Nat → ℚ) : Nat := (gridSearch score).1

/-- `stop_position = 3 + (best_order * 8)` used for the final training and
evaluation. -/
def stop_position (score : Nat → ℚ) : Nat := 3 + best_order score * 8

/-- The descriptor columns the final classifier is trained and evaluated on:
every row cut to the first `stop_position` entries. -/
def finalDescriptors (score : Nat → ℚ) (fds : List (List ℚ)) : List (List ℚ) :=
  fds.map (fun row => row.take (stop_position score))

/-! ## Helper lemmas -/

theorem mapLast_length {α : Type} (f : α → α) (l : List α) :
    (mapLast f l).length = l.length := by
  induction l with
  | nil => rfl
  | cons a rest ih =>
    cases rest with
    | nil => rfl
    | cons b r2 => simpa [mapLast] using ih

theorem mapFirst_length {α : Type} (f : α → α) (l : List α) :
    (mapFirst f l).length = l.length := by
  cases l <;> rfl

theorem mapLast_getElem? {α : Type} (f : α → α) (l : List α) (i : Nat) :
    (mapLast f l)[i]? = if i + 1 = l.length then Option.map f l[i]? else l[i]? := by
  induction l generalizing i with
  | nil => simp [mapLast]
  | cons a rest ih =>
    cases rest with
    | nil =>
      cases i with
      | zero => simp [mapLast]
      | succ n => simp [mapLast]
    | cons b r2 =>
      cases i with
      | zero =>
        have hno : ¬ (0 + 1 = (a :: b :: r2).length) := by
          simp only [List.length_cons]; omega
        simp [mapLast, hno]
      | succ n =>
        simp only [mapLast, List.getElem?_cons_succ]
        rw [ih n]
        by_cases hc : n + 1 = (b :: r2).length
        · rw [if_pos hc, if_pos (by simp only [List.length_cons] at hc ⊢; omega)]
        · rw [if_neg hc, if_neg (by simp only [List.length_cons] at hc ⊢; omega)]

theorem mapLast_getLast? {α : Type} (f : α → α) (l : List α) :
    (mapLast f l).getLast? = Option.map f l.getLast? := by
  rcases l with _ | ⟨a, rest⟩
  · rfl
  · rw [List.getLast?_eq_getElem?, List.getLast?_eq_getElem?, mapLast_length,
      mapLast_getElem?, if_pos (by simp only [List.length_cons]; omega)]

theorem mem_mapLast {α : Type} {f : α → α} {l : List α} {v : α} (h : v ∈ mapLast f l) :
    v ∈ l ∨ ∃ a, a ∈ l ∧ v = f a := by
  induction l with
  | nil => simp [mapLast] at h
  | cons a rest ih =>
    cases rest with
    | nil =>
      simp [mapLast] at h
      exact Or.inr ⟨a, by simp, h⟩
    | cons b r2 =>
      rw [mapLast] at h
      rcases List.mem_cons.mp h with h | h
      · exact Or.inl (by simp [h])
      · rcases ih h with h | ⟨w, hw, rfl⟩
        · exact Or.inl (List.mem_cons_of_mem a h)
        · exact Or.inr ⟨w, List.mem_cons_of_mem a hw, rfl⟩

theorem mem_mapFirst {α : Type} {f : α → α} {l : List α} {v : α} (h : v ∈ mapFirst f l) :
    v ∈ l ∨ ∃ a, a ∈ l ∧ v = f a := by
  cases l with
  | nil => simp [mapFirst] at h
  | cons a rest =>
    rcases List.mem_cons.mp h with h | h
    · exact Or.inr ⟨a, by simp, h⟩
    · exact Or.inl (List.mem_cons_of_mem a h)

theorem renderPart_length (p : Part) : (renderPart p).length = p.length := by
  simp [renderPart, mapLast_length]

theorem renderGeom_length (g : Geom) : (renderGeom g).length = pointCount g := by
  induction g with
  | nil => rfl
  | cons p rest ih => simp [renderGeom, pointCount, renderPart_length, ih]

theorem renderPart_flags {p : Part} {v : FeatVec} (h : v ∈ renderPart p) :
    v.fullStop = 0 ∧ v.render = 1 := by
  rcases mem_mapLast h with h | ⟨w, hw, rfl⟩
  · rcases List.mem_map.mp h with ⟨q, _, rfl⟩
    exact ⟨rfl, rfl⟩
  · rcases List.mem_map.mp hw with ⟨q, _, rfl⟩
    exact ⟨rfl, rfl⟩

theorem renderGeom_flags {g : Geom} {v : FeatVec} (h : v ∈ renderGeom g) :
    v.fullStop = 0 ∧ v.render = 1 := by
  induction g with
  | nil => simp [renderGeom] at h
  | cons p rest ih =>
    rcases List.mem_append.mp h with h | h
    · exact renderPart_flags h
    · exact ih h

theorem fullStopCount_append (l1 l2 : List FeatVec) :
    fullStopCount (l1 ++ l2) = fullStopCount l1 + fullStopCount l2 :=
  List.countP_append _ l1 l2

theorem fullStopCount_eq_zero {l : List FeatVec} (h : ∀ v ∈ l, v.fullStop = 0) :
    fullStopCount l = 0 :=
  List.countP_eq_zero.mpr (fun v hv => by simp [h v hv])

theorem fullStopCount_mapLast_setFullStop {l : List FeatVec}
    (h0 : ∀ v ∈ l, v.fullStop = 0) (h : l ≠ []) :
    fullStopCount (mapLast setFullStop l) = 1 := by
  induction l with
  | nil => exact absurd rfl h
  | cons a rest ih =>
    cases rest with
    | nil => simp [mapLast, fullStopCount, List.countP_cons, setFullStop]
    | cons b r2 =>
      have ha : a.fullStop = 0 := h0 a (by simp)
      have hr : fullStopCount (mapLast setFullStop (b :: r2)) = 1 :=
        ih (fun v hv => h0 v (List.mem_cons_of_mem a hv)) (by simp)
      rw [mapLast]
      simp only [fullStopCount, List.countP_cons] at hr ⊢
      simp [hr, ha]

theorem padTo_length (pts : List FeatVec) (L : Nat) (h : pts.length ≤ L) :
    (padTo pts L).length = L := by
  unfold padTo
  by_cases hlt : pts.length < L
  · rw [if_pos hlt]
    simp only [List.length_append, List.length_cons, List.length_replicate]
    omega
  · rw [if_neg hlt, mapLast_length]
    omega

theorem padTo_fullStopCount {pts : List FeatVec} {L : Nat}
    (h0 : ∀ v ∈ pts, v.fullStop = 0) (_hle : pts.length ≤ L) (hL : 0 < L) :
    fullStopCount (padTo pts L) = 1 := by
  unfold padTo
  by_cases hlt : pts.length < L
  · rw [if_pos hlt, fullStopCount_append, fullStopCount_eq_zero h0]
    simp only [fullStopCount, List.countP_cons]
    rw [List.countP_eq_zero.mpr (fun v hv => by simp [List.eq_of_mem_replicate hv, FeatVec.zero])]
    simp [setFullStop]
  · rw [if_neg hlt]
    exact fullStopCount_mapLast_setFullStop h0 (by
      intro hcon
      rw [hcon] at hlt
      simp at hlt
      omega)

theorem padTo_getElem_of_lt {pts : List FeatVec} {L i : Nat}
    (hlt : pts.length < L) (hi : i < pts.length) :
    (padTo pts L)[i]? = pts[i]? := by
  unfold padTo
  rw [if_pos hlt, List.getElem?_append, if_pos hi]

theorem padTo_getElem_first_pad {pts : List FeatVec} {L : Nat}
    (hlt : pts.length < L) :
    (padTo pts L)[pts.length]? = some (setFullStop FeatVec.zero) := by
  unfold padTo
  rw [if_pos hlt, List.getElem?_append_right (le_refl _)]
  simp

theorem padTo_getElem_stop {pts : List FeatVec} {L i : Nat} {w : FeatVec}
    (_hle : pts.length ≤ L) (hi : i < pts.length) (hw : pts[i]? = some w) :
    ∃ v, (padTo pts L)[i]? = some v ∧ v.stop = w.stop ∧ v.x = w.x ∧ v.y = w.y := by
  unfold padTo
  by_cases hlt : pts.length < L
  · rw [if_pos hlt, List.getElem?_append, if_pos hi, hw]
    exact ⟨w, rfl, rfl, rfl, rfl⟩
  · rw [if_neg hlt, mapLast_getElem?]
    by_cases hB : i + 1 = pts.length
    · rw [if_pos hB, hw]
      exact ⟨setFullStop w, rfl, rfl, rfl, rfl⟩
    · rw [if_neg hB, hw]
      exact ⟨w, rfl, rfl, rfl, rfl⟩

theorem padTo_getLast_of_exact {pts : List FeatVec} {L : Nat}
    (heq : pts.length = L) (hne : pts ≠ []) :
    (padTo pts L).getLast? = some (setFullStop (pts.getLast hne)) := by
  unfold padTo
  rw [if_neg (by omega), mapLast_getLast?, List.getLast?_eq_getLast pts hne]
  rfl

/-- C2: for every valid geometry with `1 ≤ point-count(G) ≤ L`,
`vectorize_wkt G L` has exactly `L` feature vectors, exactly one of them
carries `FULL_STOP = 1`; when `point-count(G) < L` the first padding vector,
at index `point-count(G)`, is the all-zero vector flagged `FULL_STOP = 1`;
when `point-count(G) = L` no padding occurs and the last real (rendered)
point carries `FULL_STOP = 1`. -/
theorem vectorize_wkt_padding_spec (g : Geom) (L : Nat)
    (hpos : 0 < pointCount g) (hle : pointCount g ≤ L) :
    (vectorize_wkt g L).length = L ∧
    fullStopCount (vectorize_wkt g L) = 1 ∧
    (pointCount g < L →
      (vectorize_wkt g L)[pointCount g]? = some (setFullStop FeatVec.zero)) ∧
    (pointCount g = L →
      ∃ v, (vectorize_wkt g L).getLast? = some v ∧ v.fullStop = 1 ∧ v.render = 1) := by
  have hlen := renderGeom_length g
  have h0 : ∀ v ∈ renderGeom g, v.fullStop = 0 := fun v hv => (renderGeom_flags hv).1
  refine ⟨padTo_length _ _ (by omega), padTo_fullStopCount h0 (by omega) (by omega), ?_, ?_⟩
  · intro hlt
    have := @padTo_getElem_first_pad (renderGeom g) L (by omega)
    rwa [hlen] at this
  · intro heq
    have hne : renderGeom g ≠ [] := by
      intro hcon
      rw [hcon] at hlen
      simp at hlen
      omega
    refine ⟨setFullStop (( renderGeom g).getLast hne),
      padTo_getLast_of_exact (by omega) hne, rfl, ?_⟩
    exact (renderGeom_flags (List.getLast_mem hne)).2

/-- C2 witness: the spec's concrete scenario, a single point padded to
length 3. -/
theorem vectorize_wkt_padding_spec_witness :
    0 < pointCount [[((1 : ℚ), 2)]] ∧ pointCount [[((1 : ℚ), 2)]] ≤ 3 ∧
    ((vectorize_wkt [[((1 : ℚ), 2)]] 3).length = 3 ∧
     fullStopCount (vectorize_wkt [[((1 : ℚ), 2)]] 3) = 1 ∧
     (pointCount [[((1 : ℚ), 2)]] < 3 →
       (vectorize_wkt [[((1 : ℚ), 2)]] 3)[pointCount [[((1 : ℚ), 2)]]]? =
         some (setFullStop FeatVec.zero)) ∧
     (pointCount [[((1 : ℚ), 2)]] = 3 →
       ∃ v, (vectorize_wkt [[((1 : ℚ), 2)]] 3).getLast? = some v ∧
         v.fullStop = 1 ∧ v.render = 1)) :=
  ⟨by decide, by decide, vectorize_wkt_padding_spec [[(1, 2)]] 3 (by decide) (by decide)⟩

/-- C5 counterexample: with `A` a single point, `B` a two-point linestring and
`L = 4` (one padding position), the last point of `B` — index 2 — does NOT
carry `FULL_STOP = 1`: the unique `FULL_STOP` of the padded sequence sits at
the first padding position, so the claim "only the last point of B has
FULL_STOP=1" fails as soon as padding occurs. -/
theorem vectorize_two_wkts_pad_cex :
    ¬ ((vectorize_two_wkts [[((0 : ℚ), 0)]] [[(1, 1), (2, 2)]] 4)[2]?.map
        FeatVec.fullStop = some 1) := by
  decide

/-- C5 amended: for geometries `A`, `B` with at least one point each and
`L ≥ point-count(A) + point-count(B)`, `vectorize_two_wkts A B L` has length
`L` and exactly one `FULL_STOP`; the point immediately following the last
point of `A` (the first point of `B`, at index `point-count(A)`) carries
`STOP = 1`; when `L` equals the combined point count, the last point of `B`
carries the `FULL_STOP`; when `L` exceeds it, the `FULL_STOP` sits on the
first padding position (index `point-count(A) + point-count(B)`) and no real
point — in particular not the last point of `B` — carries `FULL_STOP`. -/
theorem vectorize_two_wkts_amended (a b : Geom) (L : Nat)
    (hpa : 0 < pointCount a) (hpb : 0 < pointCount b)
    (hle : pointCount a + pointCount b ≤ L) :
    (vectorize_two_wkts a b L).length = L ∧
    fullStopCount (vectorize_two_wkts a b L) = 1 ∧
    (∃ v, (vectorize_two_wkts a b L)[pointCount a]? = some v ∧ v.stop = 1) ∧
    (pointCount a + pointCount b = L →
      ∃ v, (vectorize_two_wkts a b L).getLast? = some v ∧ v.fullStop = 1) ∧
    (pointCount a + pointCount b < L →
      (vectorize_two_wkts a b L)[pointCount a + pointCount b]? =
        some (setFullStop FeatVec.zero) ∧
      ∀ i, i < pointCount a + pointCount b →
        ∃ v, (vectorize_two_wkts a b L)[i]? = some v ∧ v.fullStop = 0) := by
  have hlen : (renderGeom a ++ mapFirst setStop (renderGeom b)).length =
      pointCount a + pointCount b := by
    rw [List.length_append, mapFirst_length, renderGeom_length, renderGeom_length]
  have h0 : ∀ v ∈ renderGeom a ++ mapFirst setStop (renderGeom b), v.fullStop = 0 := by
    intro v hv
    rcases List.mem_append.mp hv with hv | hv
    · exact (renderGeom_flags hv).1
    · rcases mem_mapFirst hv with hv | ⟨w, hw, rfl⟩
      · exact (renderGeom_flags hv).1
      · exact (renderGeom_flags hw).1
  have hblen : 0 < (renderGeom b).length := by rw [renderGeom_length]; omega
  refine ⟨padTo_length _ _ (by omega), padTo_fullStopCount h0 (by omega) (by omega),
    ?_, ?_, ?_⟩
  · -- the boundary point
    rcases hB : renderGeom b with _ | ⟨c, rest⟩
    · rw [hB] at hblen
      simp at hblen
    · have hget : (renderGeom a ++ mapFirst setStop (renderGeom b))[pointCount a]? =
          some (setStop c) := by
        rw [List.getElem?_append_right (by rw [renderGeom_length]),
          renderGeom_length, Nat.sub_self, hB]
        simp [mapFirst]
      rcases padTo_getElem_stop (L := L) (by omega) (by omega) hget with ⟨v, hv, hs, _⟩
      exact ⟨v, hv, by rw [hs]; rfl⟩
  · intro heq
    have hne : renderGeom a ++ mapFirst setStop (renderGeom b) ≠ [] := by
      intro hcon
      rw [hcon] at hlen
      simp at hlen
      omega
    exact ⟨setFullStop ((renderGeom a ++ mapFirst setStop (renderGeom b)).getLast hne),
      padTo_getLast_of_exact (by omega) hne, rfl⟩
  · intro hlt
    constructor
    · have := @padTo_getElem_first_pad
        (renderGeom a ++ mapFirst setStop (renderGeom b)) L (by omega)
      rwa [hlen] at this
    · intro i hi
      have hipts : i < (renderGeom a ++ mapFirst setStop (renderGeom b)).length := by omega
      have hpe := @padTo_getElem_of_lt
        (renderGeom a ++ mapFirst setStop (renderGeom b)) L i (by omega) hipts
      refine ⟨(renderGeom a ++ mapFirst setStop (renderGeom b))[i],
        by rw [vectorize_two_wkts, hpe, List.getElem?_eq_getElem hipts], ?_⟩
      exact h0 _ (List.getElem_mem hipts)

/-- C5 amended witness: a one-point geometry and a two-point geometry padded
to length 4. -/
theorem vectorize_two_wkts_amended_witness :
    0 < pointCount [[((0 : ℚ), 0)]] ∧ 0 < pointCount [[((1 : ℚ), 1), (2, 2)]] ∧
    pointCount [[((0 : ℚ), 0)]] + pointCount [[((1 : ℚ), 1), (2, 2)]] ≤ 4 ∧
    ((vectorize_two_wkts [[((0 : ℚ), 0)]] [[(1, 1), (2, 2)]] 4).length = 4 ∧
     fullStopCount (vectorize_two_wkts [[((0 : ℚ), 0)]] [[(1, 1), (2, 2)]] 4) = 1 ∧
     (∃ v, (vectorize_two_wkts [[((0 : ℚ), 0)]] [[(1, 1), (2, 2)]]
        4)[pointCount [[((0 : ℚ), 0)]]]? = some v ∧ v.stop = 1) ∧
     (pointCount [[((0 : ℚ), 0)]] + pointCount [[((1 : ℚ), 1), (2, 2)]] = 4 →
       ∃ v, (vectorize_two_wkts [[((0 : ℚ), 0)]] [[(1, 1), (2, 2)]] 4).getLast? =
         some v ∧ v.fullStop = 1) ∧
     (pointCount [[((0 : ℚ), 0)]] + pointCount [[((1 : ℚ), 1), (2, 2)]] < 4 →
       (vectorize_two_wkts [[((0 : ℚ), 0)]] [[(1, 1), (2, 2)]]
          4)[pointCount [[((0 : ℚ), 0)]] + pointCount [[((1 : ℚ), 1), (2, 2)]]]? =
         some (setFullStop FeatVec.zero) ∧
       ∀ i, i < pointCount [[((0 : ℚ), 0)]] + pointCount [[((1 : ℚ), 1), (2, 2)]] →
         ∃ v, (vectorize_two_wkts [[((0 : ℚ), 0)]] [[(1, 1), (2, 2)]] 4)[i]? =
           some v ∧ v.fullStop = 0)) :=
  ⟨by decide, by decide, by decide,
    vectorize_two_wkts_amended [[(0, 0)]] [[(1, 1), (2, 2)]] 4
      (by decide) (by decide) (by decide)⟩

/-! ## The error-handling path of the corpus pass (C1) -/

theorem recordRows_broken {L : Nat} {r : Record}
    (h : vectorize_two_wkts_e r.brt_wkt r.osm_wkt L = none ∨
         vectorize_wkt_e r.intersection_wkt L = none) :
    recordRows L r = ⟨dummyRow L, dummyRow L, true⟩ := by
  unfold recordRows
  rcases hA : vectorize_two_wkts_e r.brt_wkt r.osm_wkt L with _ | tv
  · rcases hB : vectorize_wkt_e r.intersection_wkt L with _ | iv <;> rfl
  · rcases hB : vectorize_wkt_e r.intersection_wkt L with _ | iv
    · rfl
    · rcases h with h | h
      · rw [hA] at h
        exact absurd h (by simp)
      · rw [hB] at h
        exact absurd h (by simp)

theorem mem_broken_records_aux (L : Nat) (rs : List Record) (k j : Nat)
    (hj : j < rs.length)
    (hb : (recordRows L (rs.get ⟨j, hj⟩)).broken = true) :
    k + j ∈ broken_records_aux L rs k := by
  induction rs generalizing k j with
  | nil => simp at hj
  | cons r rest ih =>
    cases j with
    | zero =>
      rw [broken_records_aux]
      simp only [List.get_eq_getElem, List.getElem_cons_zero] at hb
      rw [if_pos hb]
      simp
    | succ j2 =>
      have hj2 : j2 < rest.length := by
        simp only [List.length_cons] at hj
        omega
      have hb2 : (recordRows L (rest.get ⟨j2, hj2⟩)).broken = true := by
        simpa using hb
      have := ih (k + 1) j2 hj2 hb2
      have hk : k + (j2 + 1) = (k + 1) + j2 := by omega
      rw [broken_records_aux, hk]
      by_cases hr : (recordRows L r).broken
      · rw [if_pos hr]
        exact List.mem_cons_of_mem _ this
      · rw [if_neg hr]
        exact this

/-- C1: a record of the filtered corpus whose pair vectorization or whose
intersection vectorization fails to parse gets the degenerate placeholder row
— all-zero except `FULL_STOP = 1` at point index 0 — substituted into BOTH
the `input_geoms` and the `intersection` output arrays (even when only one of
the two vectorizations fails), its index is appended to `broken_records`, and
the run continues (the remaining records are unaffected by construction of
the per-record map). -/
theorem dummy_record_on_parse_failure (rows : List Record) (i : Nat)
    (hi : i < (truncated_data rows).length)
    (hfail :
      vectorize_two_wkts_e ((truncated_data rows).get ⟨i, hi⟩).brt_wkt
          ((truncated_data rows).get ⟨i, hi⟩).osm_wkt
          (max_points (truncated_data rows)) = none ∨
      vectorize_wkt_e ((truncated_data rows).get ⟨i, hi⟩).intersection_wkt
          (max_points (truncated_data rows)) = none) :
    (pipeline rows).input_geoms[i]? =
      some (dummyRow (max_points (truncated_data rows))) ∧
    (pipeline rows).intersection[i]? =
      some (dummyRow (max_points (truncated_data rows))) ∧
    i ∈ broken_records rows ∧
    (∀ L, 0 < L →
      dummyRow L = setFullStop FeatVec.zero :: List.replicate (L - 1) FeatVec.zero) := by
  have hrr := recordRows_broken hfail
  refine ⟨?_, ?_, ?_, ?_⟩
  · show ((truncated_data rows).map
      (fun r => (recordRows (max_points (truncated_data rows)) r).training))[i]? = _
    rw [List.getElem?_map, List.getElem?_eq_getElem hi]
    simp only [List.get_eq_getElem] at hrr
    simp [hrr]
  · show ((truncated_data rows).map
      (fun r => (recordRows (max_points (truncated_data rows)) r).target))[i]? = _
    rw [List.getElem?_map, List.getElem?_eq_getElem hi]
    simp only [List.get_eq_getElem] at hrr
    simp [hrr]
  · have := mem_broken_records_aux (max_points (truncated_data rows))
      (truncated_data rows) 0 i hi (by rw [hrr])
    simpa [broken_records] using this
  · intro L hL
    cases L with
    | zero => omega
    | succ n =>
      rw [dummyRow, zeroRow, List.replicate_succ, mapFirst]
      simp

/-- A well-formed sample record: every WKT cell parses, centroid columns are
single points, combined geometry text within the length bound. -/
def goodRow : Record :=
  { brt_wkt := ⟨"POINT(0 0)", some [[(0, 0)]]⟩
    osm_wkt := ⟨"POINT(1 1)", some [[(1, 1)]]⟩
    intersection_wkt := ⟨"POINT(0 0)", some [[(0, 0)]]⟩
    centroid_distance := 5
    geom_distance := 0
    brt_centroid := ⟨"POINT(0 0)", some [[(0, 0)]]⟩
    osm_centroid := ⟨"POINT(1 1)", some [[(1, 1)]]⟩
    brt_centroid_rd := ⟨"POINT(2 2)", some [[(2, 2)]]⟩
    osm_centroid_rd := ⟨"POINT(3 3)", some [[(3, 3)]]⟩ }

/-- A sample record whose intersection cell is malformed while both input
geometries parse. -/
def badRow : Record :=
  { goodRow with intersection_wkt := ⟨"NOT A WKT", none⟩ }

/-- C1 witness: a one-record corpus whose intersection WKT alone is
malformed; both rows get the placeholder and index 0 is reported broken. -/
theorem dummy_record_on_parse_failure_witness :
    (0 < (truncated_data [badRow]).length) ∧
    ((pipeline [badRow]).input_geoms[0]? =
        some (dummyRow (max_points (truncated_data [badRow]))) ∧
      (pipeline [badRow]).intersection[0]? =
        some (dummyRow (max_points (truncated_data [badRow]))) ∧
      0 ∈ broken_records [badRow] ∧
      (∀ L, 0 < L →
        dummyRow L = setFullStop FeatVec.zero :: List.replicate (L - 1) FeatVec.zero)) := by
  have h0 : 0 < (truncated_data [badRow]).length := by decide
  exact ⟨h0, dummy_record_on_parse_failure [badRow] 0 h0 (Or.inr rfl)⟩

/-! ## Archive shapes (C3) and the truncation filter (C4) -/

theorem pipeline_input_geoms (rows : List Record) :
    (pipeline rows).input_geoms = (truncated_data rows).map
      (fun r => (recordRows (max_points (truncated_data rows)) r).training) := rfl

theorem pipeline_intersection (rows : List Record) :
    (pipeline rows).intersection = (truncated_data rows).map
      (fun r => (recordRows (max_points (truncated_data rows)) r).target) := rfl

theorem pipeline_centroid_distance (rows : List Record) :
    (pipeline rows).centroid_distance = (truncated_data rows).map
      (fun r => [[r.centroid_distance, 0]]) := rfl

theorem pipeline_geom_distance (rows : List Record) :
    (pipeline rows).geom_distance = (truncated_data rows).map
      (fun r => [[r.geom_distance, 0]]) := rfl

theorem pipeline_brt_centroid (rows : List Record) :
    (pipeline rows).brt_centroid = (truncated_data rows).map
      (fun r => centroidVec r.brt_centroid) := rfl

theorem pipeline_osm_centroid (rows : List Record) :
    (pipeline rows).osm_centroid = (truncated_data rows).map
      (fun r => centroidVec r.osm_centroid) := rfl

theorem pipeline_centroids (rows : List Record) :
    (pipeline rows).centroids = (truncated_data rows).map centroidsRow := rfl

theorem pipeline_centroids_rd (rows : List Record) :
    (pipeline rows).centroids_rd = (truncated_data rows).map centroidsRdRow := rfl

theorem copyInto_length (dst src : List FeatVec) :
    (copyInto dst src).length = dst.length := by
  simp only [copyInto, List.length_append, List.length_take, List.length_drop]
  omega

theorem dummyRow_length (L : Nat) : (dummyRow L).length = L := by
  rw [dummyRow, mapFirst_length, zeroRow, List.length_replicate]

theorem recordRows_length (L : Nat) (r : Record) :
    (recordRows L r).training.length = L ∧ (recordRows L r).target.length = L := by
  unfold recordRows
  rcases vectorize_two_wkts_e r.brt_wkt r.osm_wkt L with _ | tv <;>
    rcases vectorize_wkt_e r.intersection_wkt L with _ | iv <;>
    simp [copyInto_length, dummyRow_length, zeroRow, List.length_replicate]

theorem toVec_length (v : FeatVec) : v.toVec.length = GEO_VECTOR_LEN := rfl

theorem isSinglePoint_spec {w : WktStr} (h : isSinglePoint w = true) :
    ∃ p, w.geom = some [[p]] := by
  rcases hg : w.geom with _ | g
  · rw [isSinglePoint, hg] at h
    simp at h
  · rcases g with _ | ⟨part, grest⟩
    · rw [isSinglePoint, hg] at h
      simp at h
    · rcases grest with _ | _
      · rcases part with _ | ⟨p, ptail⟩
        · rw [isSinglePoint, hg] at h
          simp at h
        · rcases ptail with _ | _
          · exact ⟨p, rfl⟩
          · rw [isSinglePoint, hg] at h
            simp at h
      · rw [isSinglePoint, hg] at h
        simp at h

theorem centroidVec_single {w : WktStr} {p : ℚ × ℚ} (h : w.geom = some [[p]]) :
    centroidVec w = [⟨p.1, p.2, 1, 1, 1⟩] := by
  rw [centroidVec, h]
  rfl

theorem centroidsRow_single {r : Record} {p1 p2 : ℚ × ℚ}
    (h1 : r.brt_centroid.geom = some [[p1]]) (h2 : r.osm_centroid.geom = some [[p2]]) :
    centroidsRow r = [⟨p1.1, p1.2, 1, 1, 0⟩, ⟨p2.1, p2.2, 1, 1, 1⟩] := by
  rw [centroidsRow, centroidVec_single h1, centroidVec_single h2]
  rfl

theorem centroidsRdRow_single {r : Record} {q1 q2 : ℚ × ℚ}
    (h1 : r.brt_centroid_rd.geom = some [[q1]])
    (h2 : r.osm_centroid_rd.geom = some [[q2]]) :
    centroidsRdRow r = [⟨q1.1, q1.2, 1, 1, 0⟩, ⟨q2.1, q2.2, 1, 1, 1⟩] := by
  rw [centroidsRdRow, centroidVec_single h1, centroidVec_single h2]
  rfl

/-- C3: the pipeline's archive holds exactly the eight named arrays (the
fields of `Archive`), and, writing `N` for the filtered record count, `L` for
the corpus sequence length and `W = GEO_VECTOR_LEN` for the feature width:
`input_geoms` and `intersection` are `N × L × W`, `centroid_distance` and
`geom_distance` are `N × 1 × 2`, and `centroids` and `centroids_rd` are
`N × 2 × W` (given the centroid columns hold single points, per the input
contract); `brt_centroid` and `osm_centroid` also have `N` rows. -/
theorem archive_shapes (rows : List Record)
    (hc : ∀ r ∈ truncated_data rows,
      isSinglePoint r.brt_centroid = true ∧ isSinglePoint r.osm_centroid = true ∧
      isSinglePoint r.brt_centroid_rd = true ∧ isSinglePoint r.osm_centroid_rd = true) :
    ((pipeline rows).input_geoms.length = (truncated_data rows).length ∧
      ∀ row ∈ (pipeline rows).input_geoms,
        row.length = max_points (truncated_data rows) ∧
        ∀ v ∈ row, v.toVec.length = GEO_VECTOR_LEN) ∧
    ((pipeline rows).intersection.length = (truncated_data rows).length ∧
      ∀ row ∈ (pipeline rows).intersection,
        row.length = max_points (truncated_data rows) ∧
        ∀ v ∈ row, v.toVec.length = GEO_VECTOR_LEN) ∧
    ((pipeline rows).centroid_distance.length = (truncated_data rows).length ∧
      ∀ m ∈ (pipeline rows).centroid_distance,
        m.length = 1 ∧ ∀ w ∈ m, w.length = 2) ∧
    ((pipeline rows).geom_distance.length = (truncated_data rows).length ∧
      ∀ m ∈ (pipeline rows).geom_distance,
        m.length = 1 ∧ ∀ w ∈ m, w.length = 2) ∧
    (pipeline rows).brt_centroid.length = (truncated_data rows).length ∧
    (pipeline rows).osm_centroid.length = (truncated_data rows).length ∧
    ((pipeline rows).centroids.length = (truncated_data rows).length ∧
      ∀ row ∈ (pipeline rows).centroids,
        row.length = 2 ∧ ∀ v ∈ row, v.toVec.length = GEO_VECTOR_LEN) ∧
    ((pipeline rows).centroids_rd.length = (truncated_data rows).length ∧
      ∀ row ∈ (pipeline rows).centroids_rd,
        row.length = 2 ∧ ∀ v ∈ row, v.toVec.length = GEO_VECTOR_LEN) := by
  refine ⟨⟨?_, ?_⟩, ⟨?_, ?_⟩, ⟨?_, ?_⟩, ⟨?_, ?_⟩, ?_, ?_, ⟨?_, ?_⟩, ⟨?_, ?_⟩⟩
  · rw [pipeline_input_geoms, List.length_map]
  · intro row hrow
    rcases List.mem_map.mp (by rw [pipeline_input_geoms] at hrow; exact hrow)
      with ⟨r, _, rfl⟩
    exact ⟨(recordRows_length _ r).1, fun v _ => toVec_length v⟩
  · rw [pipeline_intersection, List.length_map]
  · intro row hrow
    rcases List.mem_map.mp (by rw [pipeline_intersection] at hrow; exact hrow)
      with ⟨r, _, rfl⟩
    exact ⟨(recordRows_length _ r).2, fun v _ => toVec_length v⟩
  · rw [pipeline_centroid_distance, List.length_map]
  · intro m hm
    rcases List.mem_map.mp (by rw [pipeline_centroid_distance] at hm; exact hm)
      with ⟨r, _, rfl⟩
    exact ⟨rfl, by intro w hw; rcases List.mem_singleton.mp hw with rfl; rfl⟩
  · rw [pipeline_geom_distance, List.length_map]
  · intro m hm
    rcases List.mem_map.mp (by rw [pipeline_geom_distance] at hm; exact hm)
      with ⟨r, _, rfl⟩
    exact ⟨rfl, by intro w hw; rcases List.mem_singleton.mp hw with rfl; rfl⟩
  · rw [pipeline_brt_centroid, List.length_map]
  · rw [pipeline_osm_centroid, List.length_map]
  · rw [pipeline_centroids, List.length_map]
  · intro row hrow
    rcases List.mem_map.mp (by rw [pipeline_centroids] at hrow; exact hrow)
      with ⟨r, hr, rfl⟩
    rcases isSinglePoint_spec (hc r hr).1 with ⟨p1, h1⟩
    rcases isSinglePoint_spec (hc r hr).2.1 with ⟨p2, h2⟩
    rw [centroidsRow_single h1 h2]
    exact ⟨rfl, fun v _ => toVec_length v⟩
  · rw [pipeline_centroids_rd, List.length_map]
  · intro row hrow
    rcases List.mem_map.mp (by rw [pipeline_centroids_rd] at hrow; exact hrow)
      with ⟨r, hr, rfl⟩
    rcases isSinglePoint_spec (hc r hr).2.2.1 with ⟨q1, h3⟩
    rcases isSinglePoint_spec (hc r hr).2.2.2 with ⟨q2, h4⟩
    rw [centroidsRdRow_single h3 h4]
    exact ⟨rfl, fun v _ => toVec_length v⟩

/-- C3 witness: the one-record corpus built from `goodRow`. -/
theorem archive_shapes_witness :
    (∀ r ∈ truncated_data [goodRow],
      isSinglePoint r.brt_centroid = true ∧ isSinglePoint r.osm_centroid = true ∧
      isSinglePoint r.brt_centroid_rd = true ∧ isSinglePoint r.osm_centroid_rd = true) ∧
    ((pipeline [goodRow]).input_geoms.length = (truncated_data [goodRow]).length ∧
      ∀ row ∈ (pipeline [goodRow]).input_geoms,
        row.length = max_points (truncated_data [goodRow]) ∧
        ∀ v ∈ row, v.toVec.length = GEO_VECTOR_LEN) :=
  ⟨by decide, (archive_shapes [goodRow] (by decide)).1⟩

/-- C4: the corpus pass vectorizes exactly the records whose combined WKT
string `brt_wkt + ";" + osm_wkt` is at most `MAX_SEQUENCE_LEN = 300`
characters long: the archive's record count equals the count of such records
(not the CSV row count), membership in the vectorized list is exactly the
length condition, and the `... data points in training set` message reports
the unfiltered CSV row count. -/
theorem truncation_filter (rows : List Record) :
    (pipeline rows).input_geoms.length = (rows.filter keepRecord).length ∧
    (pipeline rows).intersection.length = (rows.filter keepRecord).length ∧
    (∀ r, r ∈ truncated_data rows ↔ r ∈ rows ∧
      (r.brt_wkt.text ++ ";" ++ r.osm_wkt.text).length ≤ MAX_SEQUENCE_LEN) ∧
    reported_count rows = rows.length := by
  refine ⟨?_, ?_, ?_, ?_⟩
  · rw [pipeline_input_geoms, List.length_map]
    rfl
  · rw [pipeline_intersection, List.length_map]
    rfl
  · intro r
    rw [truncated_data, List.mem_filter, keepRecord, decide_eq_true_iff]
  · rw [reported_count, raw_training_set, List.length_map]

/-- A sample record whose combined WKT text exceeds `MAX_SEQUENCE_LEN`. -/
def longRow : Record :=
  { goodRow with brt_wkt := ⟨String.mk (List.replicate 301 'A'), none⟩ }

set_option maxRecDepth 4000 in
/-- C4 witness: a two-record corpus where the second record's combined text
is over the bound; one record is vectorized while two are reported. -/
theorem truncation_filter_witness :
    ((pipeline [goodRow, longRow]).input_geoms.length =
        ([goodRow, longRow].filter keepRecord).length ∧
      (pipeline [goodRow, longRow]).intersection.length =
        ([goodRow, longRow].filter keepRecord).length ∧
      (∀ r, r ∈ truncated_data [goodRow, longRow] ↔ r ∈ [goodRow, longRow] ∧
        (r.brt_wkt.text ++ ";" ++ r.osm_wkt.text).length ≤ MAX_SEQUENCE_LEN) ∧
      reported_count [goodRow, longRow] = [goodRow, longRow].length) ∧
    ([goodRow, longRow].filter keepRecord).length = 1 ∧
    reported_count [goodRow, longRow] = 2 :=
  ⟨truncation_filter [goodRow, longRow], by decide, by decide⟩

/-! ## Centroid rows (C6, C9) and distance rows (C7) -/

/-- C6: in the saved `centroids` and `centroids_rd` arrays, each record's
two-point sequence satisfies the exactly-one-`FULL_STOP` invariant: after the
flag fix-up the first centroid point has `STOP = 1` and `FULL_STOP = 0`, and
only the second centroid point (vectorized with sequence length 1, so its
single real point carries `FULL_STOP`) has `FULL_STOP = 1`. -/
theorem centroids_flag_invariant (rows : List Record) (i : Nat)
    (hi : i < (truncated_data rows).length) (p1 p2 q1 q2 : ℚ × ℚ)
    (h1 : ((truncated_data rows).get ⟨i, hi⟩).brt_centroid.geom = some [[p1]])
    (h2 : ((truncated_data rows).get ⟨i, hi⟩).osm_centroid.geom = some [[p2]])
    (h3 : ((truncated_data rows).get ⟨i, hi⟩).brt_centroid_rd.geom = some [[q1]])
    (h4 : ((truncated_data rows).get ⟨i, hi⟩).osm_centroid_rd.geom = some [[q2]]) :
    (pipeline rows).centroids[i]? =
      some [⟨p1.1, p1.2, 1, 1, 0⟩, ⟨p2.1, p2.2, 1, 1, 1⟩] ∧
    (pipeline rows).centroids_rd[i]? =
      some [⟨q1.1, q1.2, 1, 1, 0⟩, ⟨q2.1, q2.2, 1, 1, 1⟩] ∧
    fullStopCount [⟨p1.1, p1.2, 1, 1, 0⟩, ⟨p2.1, p2.2, 1, 1, 1⟩] = 1 ∧
    fullStopCount [⟨q1.1, q1.2, 1, 1, 0⟩, ⟨q2.1, q2.2, 1, 1, 1⟩] = 1 := by
  simp only [List.get_eq_getElem] at h1 h2 h3 h4
  refine ⟨?_, ?_, ?_, ?_⟩
  · rw [pipeline_centroids, List.getElem?_map, List.getElem?_eq_getElem hi]
    rw [Option.map_some', centroidsRow_single h1 h2]
  · rw [pipeline_centroids_rd, List.getElem?_map, List.getElem?_eq_getElem hi]
    rw [Option.map_some', centroidsRdRow_single h3 h4]
  · simp [fullStopCount, List.countP_cons]
  · simp [fullStopCount, List.countP_cons]

/-- C6 witness: the one-record corpus built from `goodRow`, record 0. -/
theorem centroids_flag_invariant_witness :
    (0 < (truncated_data [goodRow]).length) ∧
    ((pipeline [goodRow]).centroids[0]? =
        some [⟨0, 0, 1, 1, 0⟩, ⟨1, 1, 1, 1, 1⟩] ∧
      (pipeline [goodRow]).centroids_rd[0]? =
        some [⟨2, 2, 1, 1, 0⟩, ⟨3, 3, 1, 1, 1⟩] ∧
      fullStopCount [⟨0, 0, 1, 1, 0⟩, ⟨1, 1, 1, 1, 1⟩] = 1 ∧
      fullStopCount [⟨2, 2, 1, 1, 0⟩, ⟨3, 3, 1, 1, 1⟩] = 1) := by
  have h0 : 0 < (truncated_data [goodRow]).length := by decide
  exact ⟨h0, centroids_flag_invariant [goodRow] 0 h0 (0, 0) (1, 1) (2, 2) (3, 3)
    rfl rfl rfl rfl⟩

/-- C7: each saved `centroid_distance` and `geom_distance` entry is the
`1 × 2` matrix whose first component is the distance read from the input
table row and whose second, reserved component is exactly 0. -/
theorem distance_reserved_slot (rows : List Record) (i : Nat)
    (hi : i < (truncated_data rows).length) :
    (pipeline rows).centroid_distance[i]? =
      some [[((truncated_data rows).get ⟨i, hi⟩).centroid_distance, 0]] ∧
    (pipeline rows).geom_distance[i]? =
      some [[((truncated_data rows).get ⟨i, hi⟩).geom_distance, 0]] := by
  constructor
  · rw [pipeline_centroid_distance, List.getElem?_map, List.getElem?_eq_getElem hi]
    rfl
  · rw [pipeline_geom_distance, List.getElem?_map, List.getElem?_eq_getElem hi]
    rfl

/-- C7 witness: the one-record corpus built from `goodRow`, record 0. -/
theorem distance_reserved_slot_witness :
    (0 < (truncated_data [goodRow]).length) ∧
    ((pipeline [goodRow]).centroid_distance[0]? = some [[5, 0]] ∧
      (pipeline [goodRow]).geom_distance[0]? = some [[0, 0]]) := by
  have h0 : 0 < (truncated_data [goodRow]).length := by decide
  exact ⟨h0, distance_reserved_slot [goodRow] 0 h0⟩

/-- C9: the flag fix-up on `centroids` / `centroids_rd` only affects those
concatenated copies (`np.append` allocates fresh arrays): the separately
saved `brt_centroid` and `osm_centroid` rows keep the flags originally
produced by the length-1 vectorization (`RENDER = STOP = FULL_STOP = 1`),
and the second point of `centroids` / `centroids_rd` likewise keeps its
original flags. -/
theorem centroid_frame_effect (rows : List Record) (i : Nat)
    (hi : i < (truncated_data rows).length) (p1 p2 q1 q2 : ℚ × ℚ)
    (h1 : ((truncated_data rows).get ⟨i, hi⟩).brt_centroid.geom = some [[p1]])
    (h2 : ((truncated_data rows).get ⟨i, hi⟩).osm_centroid.geom = some [[p2]])
    (h3 : ((truncated_data rows).get ⟨i, hi⟩).brt_centroid_rd.geom = some [[q1]])
    (h4 : ((truncated_data rows).get ⟨i, hi⟩).osm_centroid_rd.geom = some [[q2]]) :
    (pipeline rows).brt_centroid[i]? = some [⟨p1.1, p1.2, 1, 1, 1⟩] ∧
    (pipeline rows).osm_centroid[i]? = some [⟨p2.1, p2.2, 1, 1, 1⟩] ∧
    ((pipeline rows).centroids[i]?.bind (fun row => row[1]?)) =
      some ⟨p2.1, p2.2, 1, 1, 1⟩ ∧
    ((pipeline rows).centroids_rd[i]?.bind (fun row => row[1]?)) =
      some ⟨q2.1, q2.2, 1, 1, 1⟩ := by
  simp only [List.get_eq_getElem] at h1 h2 h3 h4
  refine ⟨?_, ?_, ?_, ?_⟩
  · rw [pipeline_brt_centroid, List.getElem?_map, List.getElem?_eq_getElem hi,
      Option.map_some', centroidVec_single h1]
  · rw [pipeline_osm_centroid, List.getElem?_map, List.getElem?_eq_getElem hi,
      Option.map_some', centroidVec_single h2]
  · rw [pipeline_centroids, List.getElem?_map, List.getElem?_eq_getElem hi,
      Option.map_some', centroidsRow_single h1 h2]
    rfl
  · rw [pipeline_centroids_rd, List.getElem?_map, List.getElem?_eq_getElem hi,
      Option.map_some', centroidsRdRow_single h3 h4]
    rfl

/-- C9 witness: the one-record corpus built from `goodRow`, record 0. -/
theorem centroid_frame_effect_witness :
    (0 < (truncated_data [goodRow]).length) ∧
    ((pipeline [goodRow]).brt_centroid[0]? = some [⟨0, 0, 1, 1, 1⟩] ∧
      (pipeline [goodRow]).osm_centroid[0]? = some [⟨1, 1, 1, 1, 1⟩] ∧
      ((pipeline [goodRow]).centroids[0]?.bind (fun row => row[1]?)) =
        some ⟨1, 1, 1, 1, 1⟩ ∧
      ((pipeline [goodRow]).centroids_rd[0]?.bind (fun row => row[1]?)) =
        some ⟨3, 3, 1, 1, 1⟩) := by
  have h0 : 0 < (truncated_data [goodRow]).length := by decide
  exact ⟨h0, centroid_frame_effect [goodRow] 0 h0 (0, 0) (1, 1) (2, 2) (3, 3)
    rfl rfl rfl rfl⟩

/-! ## Determinism (C8) -/

/-- C8: the vectorization and the whole corpus pass are deterministic pure
functions of their inputs: running `vectorize_wkt`, `vectorize_two_wkts`, or
the full pipeline twice on equal inputs yields identical (bit-identical in
the embedding) outputs; the module reads no clock, randomness or other
ambient state. -/
theorem pipeline_deterministic (g g2 : Geom) (L L2 : Nat)
    (rows rows2 : List Record)
    (hg : g = g2) (hL : L = L2) (hr : rows = rows2) :
    vectorize_wkt g L = vectorize_wkt g2 L2 ∧
    (∀ b b2 : Geom, b = b2 → vectorize_two_wkts g b L = vectorize_two_wkts g2 b2 L2) ∧
    pipeline rows = pipeline rows2 := by
  subst hg
  subst hL
  subst hr
  exact ⟨rfl, fun b b2 hb => by rw [hb], rfl⟩

/-- C8 witness: two runs on the same concrete geometry and corpus. -/
theorem pipeline_deterministic_witness :
    ([[((1 : ℚ), 2)]] = [[((1 : ℚ), 2)]] ∧ 3 = 3 ∧ [goodRow] = [goodRow]) ∧
    (vectorize_wkt [[((1 : ℚ), 2)]] 3 = vectorize_wkt [[((1 : ℚ), 2)]] 3 ∧
      (∀ b b2 : Geom, b = b2 →
        vectorize_two_wkts [[((1 : ℚ), 2)]] b 3 = vectorize_two_wkts [[((1 : ℚ), 2)]] b2 3) ∧
      pipeline [goodRow] = pipeline [goodRow]) :=
  ⟨⟨rfl, rfl, rfl⟩, pipeline_deterministic [[(1, 2)]] [[(1, 2)]] 3 3 [goodRow] [goodRow]
    rfl rfl rfl⟩

/-! ## The EFD order selection (C10) -/

theorem gridSearch_aux (score : Nat → ℚ) (l : List Nat) (b : Nat) (s : ℚ)
    (hs : s ≤ score b) :
    (∀ o ∈ l, score o ≤ (l.foldl (gridStep score) (b, s)).2) ∧
    (l.foldl (gridStep score) (b, s)).2 ≤ score (l.foldl (gridStep score) (b, s)).1 ∧
    (((l.foldl (gridStep score) (b, s)).1 = b ∧
        (l.foldl (gridStep score) (b, s)).2 = s) ∨
      ((l.foldl (gridStep score) (b, s)).1 ∈ l ∧
        score (l.foldl (gridStep score) (b, s)).1 = (l.foldl (gridStep score) (b, s)).2 ∧
        s < (l.foldl (gridStep score) (b, s)).2)) ∧
    (l.Pairwise (fun x y => x ≤ y) → (∀ o ∈ l, b ≤ o) →
      ∀ o ∈ l, score o = (l.foldl (gridStep score) (b, s)).2 →
        (l.foldl (gridStep score) (b, s)).1 ≤ o) := by
  induction l generalizing b s with
  | nil => exact ⟨by simp, by simpa using hs, Or.inl ⟨rfl, rfl⟩, by simp⟩
  | cons o rest ih =>
    rw [List.foldl_cons]
    by_cases h : s < score o
    · have hstep : gridStep score (b, s) o = (o, score o) := by rw [gridStep, if_pos h]
      rw [hstep]
      rcases ih o (score o) (le_refl _) with ⟨ih1, ih2, ih3, ih4⟩
      have hs_le : score o ≤ (rest.foldl (gridStep score) (o, score o)).2 := by
        rcases ih3 with ⟨_, h2⟩ | ⟨_, _, h3⟩
        · rw [h2]
        · exact le_of_lt h3
      refine ⟨?_, ih2, ?_, ?_⟩
      · intro x hx
        rcases List.mem_cons.mp hx with rfl | hx
        · exact hs_le
        · exact ih1 x hx
      · rcases ih3 with ⟨hb1, hb2⟩ | ⟨hm, heq, hlt⟩
        · refine Or.inr ⟨?_, ?_, ?_⟩
          · rw [hb1]
            exact List.mem_cons_self o rest
          · rw [hb1, hb2]
          · rw [hb2]
            exact h
        · exact Or.inr ⟨List.mem_cons_of_mem o hm, heq, lt_trans h hlt⟩
      · intro hpw hble x hx htie
        rcases List.pairwise_cons.mp hpw with ⟨hole, hpw2⟩
        rcases List.mem_cons.mp hx with rfl | hx
        · rcases ih3 with ⟨hb1, _⟩ | ⟨_, _, hlt⟩
          · exact le_of_eq hb1
          · exact absurd htie (ne_of_lt hlt)
        · exact ih4 hpw2 hole x hx htie
    · have hstep : gridStep score (b, s) o = (b, s) := by rw [gridStep, if_neg h]
      rw [hstep]
      rcases ih b s hs with ⟨ih1, ih2, ih3, ih4⟩
      have hso : score o ≤ s := le_of_not_lt h
      have hs_le : s ≤ (rest.foldl (gridStep score) (b, s)).2 := by
        rcases ih3 with ⟨_, h2⟩ | ⟨_, _, h3⟩
        · rw [h2]
        · exact le_of_lt h3
      refine ⟨?_, ih2, ?_, ?_⟩
      · intro x hx
        rcases List.mem_cons.mp hx with rfl | hx
        · exact le_trans hso hs_le
        · exact ih1 x hx
      · rcases ih3 with ⟨hb1, hb2⟩ | ⟨hm, heq, hlt⟩
        · exact Or.inl ⟨hb1, hb2⟩
        · exact Or.inr ⟨List.mem_cons_of_mem o hm, heq, hlt⟩
      · intro hpw hble x hx htie
        rcases List.pairwise_cons.mp hpw with ⟨hole, hpw2⟩
        rcases List.mem_cons.mp hx with rfl | hx
        · rcases ih3 with ⟨hb1, _⟩ | ⟨_, _, hlt⟩
          · rw [hb1]
            exact hble x (List.mem_cons_self x rest)
          · exact absurd htie (ne_of_lt (lt_of_le_of_lt hso hlt))
        · exact ih4 hpw2 (fun y hy => hble y (List.mem_cons_of_mem o hy)) x hx htie

/-- C10: with every grid-search best score nonnegative (scores are mean
accuracies), the selected order is one of `EFD_ORDERS`, achieves the maximal
score, and on ties the smallest (earliest-tried) order is kept, because a
later order replaces the incumbent only on a strictly greater score; the
final classifier is trained and evaluated on the descriptor columns below
`stop_position = 3 + 8 * best_order`. -/
theorem best_order_argmax (score : Nat → ℚ)
    (hnn : ∀ o ∈ EFD_ORDERS, 0 ≤ score o) :
    best_order score ∈ EFD_ORDERS ∧
    (∀ o ∈ EFD_ORDERS, score o ≤ score (best_order score)) ∧
    (∀ o ∈ EFD_ORDERS, score o = score (best_order score) → best_order score ≤ o) ∧
    stop_position score = 3 + 8 * best_order score ∧
    (∀ fds : List (List ℚ), finalDescriptors score fds =
      fds.map (fun row => row.take (3 + 8 * best_order score))) := by
  have h0 : (0 : ℚ) ≤ score 0 := hnn 0 (by decide)
  rcases gridSearch_aux score EFD_ORDERS 0 0 h0 with ⟨h1, h2, h3, h4⟩
  have hstop : stop_position score = 3 + 8 * best_order score := by
    rw [stop_position]
    omega
  refine ⟨?_, ?_, ?_, hstop, ?_⟩
  · rcases h3 with ⟨hb, _⟩ | ⟨hm, _, _⟩
    · have hbo : best_order score = 0 := hb
      rw [hbo]
      decide
    · exact hm
  · intro o ho
    exact le_trans (h1 o ho) h2
  · intro o ho htie
    rcases h3 with ⟨hb, _⟩ | ⟨_, heq, _⟩
    · have hbo : best_order score = 0 := hb
      rw [hbo]
      exact Nat.zero_le o
    · exact h4 (by decide) (fun y _ => Nat.zero_le y) o ho (htie.trans heq)
  · intro fds
    rw [finalDescriptors, hstop]

/-- A concrete score profile peaking at order 6. -/
def sampleScore : Nat → ℚ := fun o => if o = 6 then 1 else 0

/-- C10 witness: the concrete score profile `sampleScore`. -/
theorem best_order_argmax_witness :
    (∀ o ∈ EFD_ORDERS, 0 ≤ sampleScore o) ∧
    (best_order sampleScore ∈ EFD_ORDERS ∧
      (∀ o ∈ EFD_ORDERS, sampleScore o ≤ sampleScore (best_order sampleScore)) ∧
      (∀ o ∈ EFD_ORDERS, sampleScore o = sampleScore (best_order sampleScore) →
        best_order sampleScore ≤ o) ∧
      stop_position sampleScore = 3 + 8 * best_order sampleScore ∧
      (∀ fds : List (List ℚ), finalDescriptors sampleScore fds =
        fds.map (fun row => row.take (3 + 8 * best_order sampleScore)))) :=
  ⟨by decide, best_order_argmax sampleScore (by decide)⟩

end GeometryLearning
